import Mathlib

/-!
Verification of `smb_bench.py` (jimmydoh/smb-bench): a shallow embedding of
the benchmarking tool's pure computations and effect traces, with theorems
checking the natural-language specification against the code.

Conventions of the embedding:
* Python floats are modelled as rationals (`ℚ`); `round(x, d)` is modelled by
  `roundTo x d` (round to `d` decimal places).
* Python dictionaries that the code builds with a fixed key set are modelled
  as structures; a dictionary that may be absent (`{}` vs populated) is an
  `Option`.
* Fallible operations return `Option`/`Except`; a Python loop that could
  diverge is modelled by a function returning `none` on the diverging inputs.
* Randomness (`random.randint`, `os.urandom`, `uuid.uuid4`) is modelled by
  explicit parameters, constrained only by the documented contract of the
  primitive (e.g. `randint a b` lands in `[a, b]`).
-/

namespace SMBBench

/-- Model of Python `round(x, d)`: round `x` to `d` decimal places. -/
def roundTo (x : ℚ) (d : ℕ) : ℚ := (round (x * 10 ^ d) : ℤ) / 10 ^ d

/-- The dictionary returned by `_calculate_metrics` on the non-empty branch:
keys `seconds`, `mbps`, `MB_s`, `MiB_s`, `files_sec`. -/
structure Metrics where
  seconds : ℚ
  mbps : ℚ
  MB_s : ℚ
  MiB_s : ℚ
  files_sec : ℚ
deriving DecidableEq, Repr

/-- Embedding of `SMBBenchmarker._calculate_metrics` (src/src/smb_bench.py
lines 96-111).  Returns `none` for the Python empty dictionary `{}` produced
when `time_seconds == 0`. -/
def calculate_metrics (bytes_transferred time_seconds : ℚ)
    (file_count : ℚ := 1) : Option Metrics :=
  if time_seconds = 0 then none
  else
    let mb_per_sec := (bytes_transferred / 1000000) / time_seconds
    let mib_per_sec := (bytes_transferred / 1048576) / time_seconds
    let mbps := (bytes_transferred * 8) / 1000000 / time_seconds
    let files_per_sec := file_count / time_seconds
    some
      { seconds := roundTo time_seconds 3
        mbps := roundTo mbps 2
        MB_s := roundTo mb_per_sec 2
        MiB_s := roundTo mib_per_sec 2
        files_sec := roundTo files_per_sec 1 }

/-- Guarded division: `safeDiv a b` is `none` exactly when `b = 0`, i.e. when
the corresponding Python division would raise `ZeroDivisionError`. -/
def safeDiv (a b : ℚ) : Option ℚ := if b = 0 then none else some (a / b)

/-- Division-tracking embedding of `_calculate_metrics`: every division of
the source is performed through `safeDiv`, so the outer `Option` is `none`
iff the Python code would raise `ZeroDivisionError`.  The inner `Option`
distinguishes the empty dictionary returned when `time_seconds == 0`. -/
def calculate_metrics_checked (bytes_transferred time_seconds : ℚ)
    (file_count : ℚ := 1) : Option (Option Metrics) :=
  if time_seconds = 0 then some none
  else do
    let q1 ← safeDiv bytes_transferred 1000000
    let mb_per_sec ← safeDiv q1 time_seconds
    let q2 ← safeDiv bytes_transferred 1048576
    let mib_per_sec ← safeDiv q2 time_seconds
    let q3 ← safeDiv (bytes_transferred * 8) 1000000
    let mbps ← safeDiv q3 time_seconds
    let files_per_sec ← safeDiv file_count time_seconds
    some (some
      { seconds := roundTo time_seconds 3
        mbps := roundTo mbps 2
        MB_s := roundTo mb_per_sec 2
        MiB_s := roundTo mib_per_sec 2
        files_sec := roundTo files_per_sec 1 })

/-- C1: for every `bytes_transferred b ≥ 0`, every `file_count n`, and every
`time_seconds t > 0`, `_calculate_metrics` returns a dictionary with
`seconds = round(t, 3)`, `mbps = round((b*8)/1_000_000/t, 2)`,
`MB_s = round((b/1_000_000)/t, 2)`, `MiB_s = round((b/1_048_576)/t, 2)`, and
`files_sec = round(n/t, 1)`. -/
theorem calculate_metrics_spec (b n t : ℚ) (hb : 0 ≤ b) (ht : 0 < t) :
    calculate_metrics b t n =
      some
        { seconds := roundTo t 3
          mbps := roundTo ((b * 8) / 1000000 / t) 2
          MB_s := roundTo ((b / 1000000) / t) 2
          MiB_s := roundTo ((b / 1048576) / t) 2
          files_sec := roundTo (n / t) 1 } := by
  unfold calculate_metrics
  rw [if_neg (ne_of_gt ht)]

/-- Witness for `calculate_metrics_spec` at concrete inputs. -/
theorem calculate_metrics_spec_witness :
    (0 : ℚ) ≤ 1000000 ∧ (0 : ℚ) < 2 ∧
      calculate_metrics 1000000 2 5 =
        some
          { seconds := roundTo 2 3
            mbps := roundTo ((1000000 * 8) / 1000000 / 2) 2
            MB_s := roundTo ((1000000 / 1000000) / 2) 2
            MiB_s := roundTo ((1000000 / 1048576) / 2) 2
            files_sec := roundTo (5 / 2) 1 } :=
  ⟨by norm_num, by norm_num,
    calculate_metrics_spec 1000000 5 2 (by norm_num) (by norm_num)⟩

/-- C8: every division in `_calculate_metrics` is guarded: evaluating the
function with division-by-zero tracked never raises, and when
`time_seconds = 0` the function returns the empty dictionary without
performing any division; for `time_seconds ≠ 0` the guarded evaluation
agrees with the direct embedding. -/
theorem calculate_metrics_checked_eq (b t n : ℚ) :
    calculate_metrics_checked b t n = some (calculate_metrics b t n) := by
  by_cases ht : t = 0
  · simp [calculate_metrics_checked, calculate_metrics, ht]
  · simp [calculate_metrics_checked, calculate_metrics, safeDiv, ht]

/-- The 1 MB chunk size used by `_generate_file`. -/
def chunk_size : ℕ := 1024 * 1024

/-- The `while written < size_bytes` loop of `_generate_file`, tracking
`remaining = size_bytes - written`.  Returns the list of per-iteration write
sizes (`bytes_to_write = min(size_bytes - written, len(chunk))`), or `none`
on inputs where the Python loop would never terminate (an empty chunk with
bytes still to write — unreachable from `_generate_file`). -/
def writeLoop (remaining chunkLen : ℕ) : Option (List ℕ) :=
  if h : remaining = 0 then some []
  else if hc : chunkLen = 0 then none
  else
    (writeLoop (remaining - min remaining chunkLen) chunkLen).map
      fun l => min remaining chunkLen :: l
termination_by remaining
decreasing_by omega

/-- Embedding of `SMBBenchmarker._generate_file` (lines 85-94): the chunk is
`os.urandom(min(size_bytes, chunk_size))`, then the write loop runs.  The
result is the list of write sizes actually issued to the file. -/
def generate_file (size_bytes : ℕ) : Option (List ℕ) :=
  writeLoop size_bytes (min size_bytes chunk_size)

/-- Config field `self.large_size = large_file_size_mb * 1024 * 1024` from
the constructor (line 56). -/
def large_size (large_file_size_mb : ℕ) : ℕ := large_file_size_mb * 1024 * 1024

theorem writeLoop_sum (chunkLen : ℕ) (hc : chunkLen ≠ 0) (remaining : ℕ) :
    ∃ l, writeLoop remaining chunkLen = some l ∧ l.sum = remaining := by
  induction remaining using Nat.strong_induction_on with
  | _ n ih =>
    by_cases h : n = 0
    · subst h
      exact ⟨[], by rw [writeLoop]; simp, rfl⟩
    · obtain ⟨l, hl, hsum⟩ := ih (n - min n chunkLen) (by omega)
      refine ⟨min n chunkLen :: l, ?_, ?_⟩
      · rw [writeLoop]
        simp [h, hc, hl]
      · rw [List.sum_cons, hsum]
        omega

theorem generate_file_total (size_bytes : ℕ) :
    ∃ writes, generate_file size_bytes = some writes ∧ writes.sum = size_bytes := by
  by_cases h : size_bytes = 0
  · subst h
    exact ⟨[], by rw [generate_file, writeLoop]; simp, rfl⟩
  · exact writeLoop_sum (min size_bytes chunk_size)
      (by simp [chunk_size]; omega) size_bytes

/-- C2: for every `size_bytes ≥ 0`, `_generate_file` terminates and writes
exactly `size_bytes` bytes, and in particular the large file is generated at
exactly `large_file_size_mb * 1024 * 1024` bytes. -/
theorem generate_file_exact_size :
    (∀ size_bytes, ∃ writes,
        generate_file size_bytes = some writes ∧ writes.sum = size_bytes) ∧
    ∀ mb, ∃ writes,
        generate_file (large_size mb) = some writes ∧
          writes.sum = mb * 1024 * 1024 :=
  ⟨generate_file_total, fun mb => generate_file_total (large_size mb)⟩

/-- Config field `self.small_min_size = small_min_kb * 1024` (line 58). -/
def small_min_size (small_min_kb : ℕ) : ℕ := small_min_kb * 1024

/-- Config field `self.small_max_size = small_max_kb * 1024` (line 59). -/
def small_max_size (small_max_kb : ℕ) : ℕ := small_max_kb * 1024

/-- Result of the normal-mode branch of `setup_small_files`: whether the
existing file set was reused, the sizes of the `.bin` files present in
`small_files/` afterwards, and the `total_small_files_mb` config entry. -/
structure SmallSetup where
  reused : Bool
  sizes : List ℕ
  total_small_files_mb : ℚ
deriving DecidableEq, Repr

/-- Embedding of the normal-mode branch of `SMBBenchmarker.setup_small_files`
(lines 169-190).  `existing` lists the sizes of the `.bin` files currently in
the directory; `randint lo hi i` models the `random.randint(lo, hi)` draw of
loop iteration `i`.  On a count mismatch the directory is removed
(`shutil.rmtree`) and recreated, so the resulting sizes are exactly the
freshly generated ones. -/
def setup_small_files (small_count minSize maxSize : ℕ) (existing : List ℕ)
    (randint : ℕ → ℕ → ℕ → ℕ) : SmallSetup :=
  if existing.length = small_count then
    { reused := true
      sizes := existing
      total_small_files_mb := roundTo ((existing.sum : ℚ) / 1024 / 1024) 2 }
  else
    let gen := (List.range small_count).map (fun i => randint minSize maxSize i)
    { reused := false
      sizes := gen
      total_small_files_mb := roundTo ((gen.sum : ℚ) / 1024 / 1024) 2 }

/-- What `setup_large_file` does in normal mode (lines 130-136). -/
inductive LargeSetupAction where
  | reuse
  | generate
deriving DecidableEq, Repr

/-- Embedding of the normal-mode branch of `SMBBenchmarker.setup_large_file`
(lines 130-136): `existing = some sz` when the staged large file exists with
`st_size = sz`, `none` when it does not exist; the file is reused when
`fpath.exists() and fpath.stat().st_size == self.large_size`. -/
def setup_large_file (large_sz : ℕ) (existing : Option ℕ) : LargeSetupAction :=
  match existing with
  | some sz => if sz = large_sz then .reuse else .generate
  | none => .generate

/-- C3: in normal mode, when the number of existing `.bin` files differs from
`small_count`, `setup_small_files` regenerates: it produces exactly
`small_count` files, each of a size in the inclusive range
`[small_min_kb*1024, small_max_kb*1024]`, and records
`total_small_files_mb = round(total_generated_bytes/1024/1024, 2)`. -/
theorem setup_small_files_regenerates
    (small_count small_min_kb small_max_kb : ℕ) (existing : List ℕ)
    (randint : ℕ → ℕ → ℕ → ℕ)
    (hmismatch : existing.length ≠ small_count)
    (hkb : small_min_kb ≤ small_max_kb)
    (hr : ∀ lo hi i, lo ≤ hi → lo ≤ randint lo hi i ∧ randint lo hi i ≤ hi) :
    (setup_small_files small_count (small_min_size small_min_kb)
        (small_max_size small_max_kb) existing randint).reused = false ∧
    (setup_small_files small_count (small_min_size small_min_kb)
        (small_max_size small_max_kb) existing randint).sizes.length = small_count ∧
    (∀ s ∈ (setup_small_files small_count (small_min_size small_min_kb)
        (small_max_size small_max_kb) existing randint).sizes,
      small_min_kb * 1024 ≤ s ∧ s ≤ small_max_kb * 1024) ∧
    (setup_small_files small_count (small_min_size small_min_kb)
        (small_max_size small_max_kb) existing randint).total_small_files_mb =
      roundTo (((setup_small_files small_count (small_min_size small_min_kb)
        (small_max_size small_max_kb) existing randint).sizes.sum : ℚ)
          / 1024 / 1024) 2 := by
  have hle : small_min_size small_min_kb ≤ small_max_size small_max_kb := by
    simp [small_min_size, small_max_size]
    omega
  unfold setup_small_files
  rw [if_neg hmismatch]
  refine ⟨rfl, by simp, ?_, rfl⟩
  intro s hs
  simp only [List.mem_map, List.mem_range] at hs
  obtain ⟨i, _, rfl⟩ := hs
  have := hr (small_min_size small_min_kb) (small_max_size small_max_kb) i hle
  simpa [small_min_size, small_max_size] using this

/-- Witness for `setup_small_files_regenerates` at concrete inputs. -/
theorem setup_small_files_regenerates_witness :
    ([(5 : ℕ)].length ≠ 2 ∧ (1 : ℕ) ≤ 1) ∧
    ((setup_small_files 2 (small_min_size 1) (small_max_size 1) [5]
        (fun lo _ _ => lo)).reused = false ∧
      (setup_small_files 2 (small_min_size 1) (small_max_size 1) [5]
        (fun lo _ _ => lo)).sizes.length = 2 ∧
      (∀ s ∈ (setup_small_files 2 (small_min_size 1) (small_max_size 1) [5]
          (fun lo _ _ => lo)).sizes, 1 * 1024 ≤ s ∧ s ≤ 1 * 1024) ∧
      (setup_small_files 2 (small_min_size 1) (small_max_size 1) [5]
          (fun lo _ _ => lo)).total_small_files_mb =
        roundTo (((setup_small_files 2 (small_min_size 1) (small_max_size 1) [5]
            (fun lo _ _ => lo)).sizes.sum : ℚ) / 1024 / 1024) 2) :=
  ⟨⟨by decide, by decide⟩,
    setup_small_files_regenerates 2 1 1 [5] (fun lo _ _ => lo)
      (by decide) (by decide) (fun lo hi i h => ⟨le_refl lo, h⟩)⟩

/-- C4: in normal mode the large file is reused iff it exists with size
equal to the configured `large_size`, and the small-file set is reused iff
the number of existing `.bin` files equals `small_count`. -/
theorem setup_reuse_iff (large_sz : ℕ) (existing_large : Option ℕ)
    (small_count minSize maxSize : ℕ) (existing_small : List ℕ)
    (randint : ℕ → ℕ → ℕ → ℕ) :
    (setup_large_file large_sz existing_large = .reuse ↔
      existing_large = some large_sz) ∧
    ((setup_small_files small_count minSize maxSize existing_small
        randint).reused = true ↔ existing_small.length = small_count) := by
  constructor
  · cases existing_large with
    | none => simp [setup_large_file]
    | some sz =>
      by_cases h : sz = large_sz <;> simp [setup_large_file, h]
  · unfold setup_small_files
    by_cases h : existing_small.length = small_count <;> simp [h]

/-- The per-test dictionary (the large_file or small_files entry of
the results) once populated: keys `upload` and `download`. -/
structure TestMetrics where
  upload : Metrics
  download : Metrics
deriving DecidableEq, Repr

/-- One entry of `all_results`: the `results` dictionary of a run.  The
`large_file`/`small_files` sub-dictionaries are `none` when the run left
them empty (test skipped), `some` when both directions were recorded. -/
structure RunResult where
  large_file : Option TestMetrics
  small_files : Option TestMetrics
deriving DecidableEq, Repr

/-- The three aggregate entries `metric_avg`, `metric_min`, `metric_max`
computed for one metric key. -/
structure MetricStats where
  avg : ℚ
  mn : ℚ
  mx : ℚ
deriving DecidableEq, Repr

/-- Python `min(x :: xs)` as a left fold, matching the builtin on a
non-empty list. -/
def pyMin (x : ℚ) (xs : List ℚ) : ℚ := xs.foldl min x

/-- Python `max(x :: xs)` as a left fold, matching the builtin on a
non-empty list. -/
def pyMax (x : ℚ) (xs : List ℚ) : ℚ := xs.foldl max x

/-- The inner metric loop of `calculate_aggregate_stats` (lines 330-334) for
one metric key, on the non-empty value list `v :: vs`:
`avg = round(sum(values)/len(values), 2)`, `mn = round(min(values), 2)`,
`mx = round(max(values), 2)`. -/
def statsOf (v : ℚ) (vs : List ℚ) : MetricStats :=
  { avg := roundTo ((v :: vs).sum / (((v :: vs).length : ℕ) : ℚ)) 2
    mn := roundTo (pyMin v vs) 2
    mx := roundTo (pyMax v vs) 2 }

/-- The per-direction aggregate dictionary: stats for each of the five
metric keys. -/
structure AggDir where
  seconds : MetricStats
  mbps : MetricStats
  MB_s : MetricStats
  MiB_s : MetricStats
  files_sec : MetricStats
deriving DecidableEq, Repr

/-- The metric loop of `calculate_aggregate_stats` for one direction, with
the per-run metric dictionaries `m :: ms`. -/
def aggDirMetrics (m : Metrics) (ms : List Metrics) : AggDir :=
  { seconds := statsOf m.seconds (ms.map Metrics.seconds)
    mbps := statsOf m.mbps (ms.map Metrics.mbps)
    MB_s := statsOf m.MB_s (ms.map Metrics.MB_s)
    MiB_s := statsOf m.MiB_s (ms.map Metrics.MiB_s)
    files_sec := statsOf m.files_sec (ms.map Metrics.files_sec) }

/-- Aggregate stats for both directions of one test category. -/
structure AggPair where
  upload : AggDir
  download : AggDir
deriving DecidableEq, Repr

/-- The direction loop of `calculate_aggregate_stats` (lines 328-335), with
the per-run test dictionaries `d :: ds`. -/
def aggPair (d : TestMetrics) (ds : List TestMetrics) : AggPair :=
  { upload := aggDirMetrics d.upload (ds.map TestMetrics.upload)
    download := aggDirMetrics d.download (ds.map TestMetrics.download) }

/-- The aggregate dictionary built by `calculate_aggregate_stats`. -/
structure Aggregate where
  batch_count : ℕ
  large_file : Option AggPair
  small_files : Option AggPair
deriving DecidableEq, Repr

/-- The per-run value extraction `[r[key] for r in runs]` for an optional
sub-dictionary: `none` when some run is missing the key (Python would raise
`KeyError`). -/
def mapOpt {α β : Type} (f : α → Option β) : List α → Option (List β)
  | [] => some []
  | a :: l => do
      let b ← f a
      let bs ← mapOpt f l
      some (b :: bs)

/-- Embedding of `calculate_aggregate_stats` (lines 315-348) on the
non-empty run list `first :: rest` (the Python code indexes
`all_results[0]`, so the list is non-empty at every call site).  A category
is aggregated exactly when the upload key is present in the first run; the
result is `none` when a later run is missing a key present in the first run
(the Python code would raise `KeyError`). -/
def calculate_aggregate_stats (first : RunResult) (rest : List RunResult) :
    Option Aggregate := do
  let largePart ←
    match first.large_file with
    | none => some none
    | some d => do
        let ds ← mapOpt RunResult.large_file rest
        some (some (aggPair d ds))
  let smallPart ←
    match first.small_files with
    | none => some none
    | some d => do
        let ds ← mapOpt RunResult.small_files rest
        some (some (aggPair d ds))
  some
    { batch_count := (first :: rest).length
      large_file := largePart
      small_files := smallPart }

/-- Specification predicate, from the claim's words: `s` holds the rounded
average, minimum and maximum of the per-run value list `vals`. -/
def StatsSpec (vals : List ℚ) (s : MetricStats) : Prop :=
  s.avg = roundTo (vals.sum / ((vals.length : ℕ) : ℚ)) 2 ∧
  (∃ m ∈ vals, (∀ v ∈ vals, m ≤ v) ∧ s.mn = roundTo m 2) ∧
  (∃ M ∈ vals, (∀ v ∈ vals, v ≤ M) ∧ s.mx = roundTo M 2)

/-- Specification predicate for one direction: each of the five metric keys
aggregates its per-run values. -/
def DirSpec (m : Metrics) (ms : List Metrics) (a : AggDir) : Prop :=
  StatsSpec ((m :: ms).map Metrics.seconds) a.seconds ∧
  StatsSpec ((m :: ms).map Metrics.mbps) a.mbps ∧
  StatsSpec ((m :: ms).map Metrics.MB_s) a.MB_s ∧
  StatsSpec ((m :: ms).map Metrics.MiB_s) a.MiB_s ∧
  StatsSpec ((m :: ms).map Metrics.files_sec) a.files_sec

/-- Specification predicate for one test category: both directions
aggregate their per-run test metrics. -/
def PairSpec (d : TestMetrics) (ds : List TestMetrics) (p : AggPair) : Prop :=
  DirSpec d.upload (ds.map TestMetrics.upload) p.upload ∧
  DirSpec d.download (ds.map TestMetrics.download) p.download

theorem pyMin_le_init : ∀ (xs : List ℚ) (x : ℚ), pyMin x xs ≤ x := by
  intro xs
  induction xs with
  | nil => intro x; exact le_refl x
  | cons a l ih =>
    intro x
    calc pyMin x (a :: l) = pyMin (min x a) l := rfl
    _ ≤ min x a := ih (min x a)
    _ ≤ x := min_le_left x a

theorem pyMin_le_all : ∀ (xs : List ℚ) (x : ℚ), ∀ v ∈ x :: xs, pyMin x xs ≤ v := by
  intro xs
  induction xs with
  | nil =>
    intro x v hv
    rcases List.mem_cons.mp hv with h | h
    · subst h; exact le_refl v
    · exact absurd h (List.not_mem_nil v)
  | cons a l ih =>
    intro x v hv
    have hstep : pyMin x (a :: l) = pyMin (min x a) l := rfl
    rcases List.mem_cons.mp hv with h | h
    · rw [h, hstep]
      exact (pyMin_le_init l (min x a)).trans (min_le_left x a)
    · rcases List.mem_cons.mp h with h1 | h1
      · rw [h1, hstep]
        exact (pyMin_le_init l (min x a)).trans (min_le_right x a)
      · rw [hstep]
        exact ih (min x a) v (List.mem_cons_of_mem _ h1)

theorem pyMin_mem : ∀ (xs : List ℚ) (x : ℚ), pyMin x xs ∈ x :: xs := by
  intro xs
  induction xs with
  | nil => intro x; exact List.mem_cons_self x []
  | cons a l ih =>
    intro x
    have hstep : pyMin x (a :: l) = pyMin (min x a) l := rfl
    have h := ih (min x a)
    rw [hstep]
    rcases List.mem_cons.mp h with h1 | h1
    · rcases min_choice x a with hm | hm
      · rw [h1, hm]; exact List.mem_cons_self x (a :: l)
      · rw [h1, hm]
        exact List.mem_cons_of_mem x (List.mem_cons_self a l)
    · exact List.mem_cons_of_mem x (List.mem_cons_of_mem a h1)

theorem pyMax_init_le : ∀ (xs : List ℚ) (x : ℚ), x ≤ pyMax x xs := by
  intro xs
  induction xs with
  | nil => intro x; exact le_refl x
  | cons a l ih =>
    intro x
    calc x ≤ max x a := le_max_left x a
    _ ≤ pyMax (max x a) l := ih (max x a)
    _ = pyMax x (a :: l) := rfl

theorem pyMax_all_le : ∀ (xs : List ℚ) (x : ℚ), ∀ v ∈ x :: xs, v ≤ pyMax x xs := by
  intro xs
  induction xs with
  | nil =>
    intro x v hv
    rcases List.mem_cons.mp hv with h | h
    · subst h; exact le_refl v
    · exact absurd h (List.not_mem_nil v)
  | cons a l ih =>
    intro x v hv
    have hstep : pyMax x (a :: l) = pyMax (max x a) l := rfl
    rcases List.mem_cons.mp hv with h | h
    · rw [h, hstep]
      exact (le_max_left x a).trans (pyMax_init_le l (max x a))
    · rcases List.mem_cons.mp h with h1 | h1
      · rw [h1, hstep]
        exact (le_max_right x a).trans (pyMax_init_le l (max x a))
      · rw [hstep]
        exact ih (max x a) v (List.mem_cons_of_mem _ h1)

theorem pyMax_mem : ∀ (xs : List ℚ) (x : ℚ), pyMax x xs ∈ x :: xs := by
  intro xs
  induction xs with
  | nil => intro x; exact List.mem_cons_self x []
  | cons a l ih =>
    intro x
    have hstep : pyMax x (a :: l) = pyMax (max x a) l := rfl
    have h := ih (max x a)
    rw [hstep]
    rcases List.mem_cons.mp h with h1 | h1
    · rcases max_choice x a with hm | hm
      · rw [h1, hm]; exact List.mem_cons_self x (a :: l)
      · rw [h1, hm]
        exact List.mem_cons_of_mem x (List.mem_cons_self a l)
    · exact List.mem_cons_of_mem x (List.mem_cons_of_mem a h1)

theorem roundTo_mono (d : ℕ) {x y : ℚ} (h : x ≤ y) : roundTo x d ≤ roundTo y d := by
  unfold roundTo
  have hr : round (x * 10 ^ d) ≤ round (y * 10 ^ d) := by
    rw [round_eq, round_eq]
    exact Int.floor_le_floor
      (add_le_add_right (mul_le_mul_of_nonneg_right h (by positivity)) _)
  have hq : ((round (x * 10 ^ d) : ℤ) : ℚ) ≤ ((round (y * 10 ^ d) : ℤ) : ℚ) := by
    exact_mod_cast hr
  rw [div_eq_mul_inv, div_eq_mul_inv]
  exact mul_le_mul_of_nonneg_right hq (by positivity)

theorem pyMin_le_avg (v : ℚ) (vs : List ℚ) :
    pyMin v vs ≤ (v :: vs).sum / (((v :: vs).length : ℕ) : ℚ) := by
  have hlen : (0 : ℚ) < (((v :: vs).length : ℕ) : ℚ) := by
    simp only [List.length_cons]
    exact_mod_cast Nat.succ_pos vs.length
  rw [le_div_iff₀ hlen]
  have h := List.card_nsmul_le_sum (v :: vs) (pyMin v vs) (pyMin_le_all vs v)
  rw [nsmul_eq_mul] at h
  calc pyMin v vs * (((v :: vs).length : ℕ) : ℚ)
      = (((v :: vs).length : ℕ) : ℚ) * pyMin v vs := mul_comm _ _
  _ ≤ (v :: vs).sum := h

theorem avg_le_pyMax (v : ℚ) (vs : List ℚ) :
    (v :: vs).sum / (((v :: vs).length : ℕ) : ℚ) ≤ pyMax v vs := by
  have hlen : (0 : ℚ) < (((v :: vs).length : ℕ) : ℚ) := by
    simp only [List.length_cons]
    exact_mod_cast Nat.succ_pos vs.length
  rw [div_le_iff₀ hlen]
  have h := List.sum_le_card_nsmul (v :: vs) (pyMax v vs) (pyMax_all_le vs v)
  rw [nsmul_eq_mul] at h
  calc (v :: vs).sum ≤ (((v :: vs).length : ℕ) : ℚ) * pyMax v vs := h
  _ = pyMax v vs * (((v :: vs).length : ℕ) : ℚ) := mul_comm _ _

theorem statsOf_spec (v : ℚ) (vs : List ℚ) : StatsSpec (v :: vs) (statsOf v vs) := by
  refine ⟨rfl, ⟨pyMin v vs, pyMin_mem vs v, fun w hw => pyMin_le_all vs v w hw, rfl⟩,
    ⟨pyMax v vs, pyMax_mem vs v, fun w hw => pyMax_all_le vs v w hw, rfl⟩⟩

theorem aggDirMetrics_spec (m : Metrics) (ms : List Metrics) :
    DirSpec m ms (aggDirMetrics m ms) :=
  ⟨statsOf_spec _ _, statsOf_spec _ _, statsOf_spec _ _, statsOf_spec _ _,
    statsOf_spec _ _⟩

theorem aggPair_spec (d : TestMetrics) (ds : List TestMetrics) :
    PairSpec d ds (aggPair d ds) :=
  ⟨aggDirMetrics_spec _ _, aggDirMetrics_spec _ _⟩

theorem mapOpt_isSome {α β : Type} (f : α → Option β) :
    ∀ l : List α, (∀ a ∈ l, (f a).isSome = true) → ∃ bs, mapOpt f l = some bs := by
  intro l
  induction l with
  | nil => intro _; exact ⟨[], rfl⟩
  | cons a t ih =>
    intro h
    obtain ⟨b, hb⟩ := Option.isSome_iff_exists.mp (h a (List.mem_cons_self a t))
    obtain ⟨bs, hbs⟩ := ih fun x hx => h x (List.mem_cons_of_mem a hx)
    exact ⟨b :: bs, by simp [mapOpt, hb, hbs]⟩

/-- C5: for every non-empty run list whose runs carry the same metric keys
as the first, `calculate_aggregate_stats` returns `batch_count` equal to the
number of runs and, for every direction and metric, the rounded average,
minimum, and maximum of the per-run values. -/
theorem calculate_aggregate_stats_spec (first : RunResult) (rest : List RunResult)
    (hL : ∀ r ∈ rest, r.large_file.isSome = first.large_file.isSome)
    (hS : ∀ r ∈ rest, r.small_files.isSome = first.small_files.isSome) :
    ∃ a, calculate_aggregate_stats first rest = some a ∧
      a.batch_count = (first :: rest).length ∧
      (∀ d, first.large_file = some d → ∃ ds p,
        mapOpt RunResult.large_file rest = some ds ∧
        a.large_file = some p ∧ PairSpec d ds p) ∧
      (∀ d, first.small_files = some d → ∃ ds p,
        mapOpt RunResult.small_files rest = some ds ∧
        a.small_files = some p ∧ PairSpec d ds p) := by
  cases hfl : first.large_file with
  | none =>
    cases hfs : first.small_files with
    | none =>
      refine ⟨⟨(first :: rest).length, none, none⟩, ?_, rfl, ?_, ?_⟩
      · simp [calculate_aggregate_stats, hfl, hfs]
      · intro d hd; exact absurd hd (by simp)
      · intro d hd; exact absurd hd (by simp)
    | some e =>
      obtain ⟨es, hes⟩ := mapOpt_isSome RunResult.small_files rest
        (fun r hr => by rw [hS r hr, hfs]; rfl)
      refine ⟨⟨(first :: rest).length, none, some (aggPair e es)⟩, ?_, rfl, ?_, ?_⟩
      · simp [calculate_aggregate_stats, hfl, hfs, hes]
      · intro d hd; exact absurd hd (by simp)
      · intro d0 hd0
        obtain rfl := Option.some_inj.mp hd0
        exact ⟨es, aggPair e es, hes, rfl, aggPair_spec e es⟩
  | some d =>
    obtain ⟨ds, hds⟩ := mapOpt_isSome RunResult.large_file rest
      (fun r hr => by rw [hL r hr, hfl]; rfl)
    cases hfs : first.small_files with
    | none =>
      refine ⟨⟨(first :: rest).length, some (aggPair d ds), none⟩, ?_, rfl, ?_, ?_⟩
      · simp [calculate_aggregate_stats, hfl, hfs, hds]
      · intro d0 hd0
        obtain rfl := Option.some_inj.mp hd0
        exact ⟨ds, aggPair d ds, hds, rfl, aggPair_spec d ds⟩
      · intro e he; exact absurd he (by simp)
    | some e =>
      obtain ⟨es, hes⟩ := mapOpt_isSome RunResult.small_files rest
        (fun r hr => by rw [hS r hr, hfs]; rfl)
      refine ⟨⟨(first :: rest).length, some (aggPair d ds), some (aggPair e es)⟩,
        ?_, rfl, ?_, ?_⟩
      · simp [calculate_aggregate_stats, hfl, hfs, hds, hes]
      · intro d0 hd0
        obtain rfl := Option.some_inj.mp hd0
        exact ⟨ds, aggPair d ds, hds, rfl, aggPair_spec d ds⟩
      · intro d0 hd0
        obtain rfl := Option.some_inj.mp hd0
        exact ⟨es, aggPair e es, hes, rfl, aggPair_spec e es⟩

/-- A sample metrics dictionary used by witnesses. -/
def sampleMetrics : Metrics := ⟨1, 1, 1, 1, 1⟩

/-- A sample run with a populated `large_file` entry, used by witnesses. -/
def sampleRun : RunResult := ⟨some ⟨sampleMetrics, sampleMetrics⟩, none⟩

/-- Witness for `calculate_aggregate_stats_spec` at concrete inputs. -/
theorem calculate_aggregate_stats_spec_witness :
    ((∀ r ∈ ([] : List RunResult),
        r.large_file.isSome = sampleRun.large_file.isSome) ∧
      (∀ r ∈ ([] : List RunResult),
        r.small_files.isSome = sampleRun.small_files.isSome)) ∧
    ∃ a, calculate_aggregate_stats sampleRun [] = some a ∧
      a.batch_count = (sampleRun :: []).length ∧
      (∀ d, sampleRun.large_file = some d → ∃ ds p,
        mapOpt RunResult.large_file ([] : List RunResult) = some ds ∧
        a.large_file = some p ∧ PairSpec d ds p) ∧
      (∀ d, sampleRun.small_files = some d → ∃ ds p,
        mapOpt RunResult.small_files ([] : List RunResult) = some ds ∧
        a.small_files = some p ∧ PairSpec d ds p) :=
  ⟨⟨by simp, by simp⟩,
    calculate_aggregate_stats_spec sampleRun [] (by simp) (by simp)⟩

/-- Claim C10's ordering for one metric's aggregate entries. -/
def StatsOrdered (s : MetricStats) : Prop := s.mn ≤ s.avg ∧ s.avg ≤ s.mx

/-- Claim C10's ordering for every metric of one direction. -/
def DirOrdered (a : AggDir) : Prop :=
  StatsOrdered a.seconds ∧ StatsOrdered a.mbps ∧ StatsOrdered a.MB_s ∧
    StatsOrdered a.MiB_s ∧ StatsOrdered a.files_sec

/-- Claim C10's ordering for both directions of one test category. -/
def PairOrdered (p : AggPair) : Prop := DirOrdered p.upload ∧ DirOrdered p.download

theorem statsOf_ordered (v : ℚ) (vs : List ℚ) : StatsOrdered (statsOf v vs) :=
  ⟨roundTo_mono 2 (pyMin_le_avg v vs), roundTo_mono 2 (avg_le_pyMax v vs)⟩

theorem aggPair_ordered (d : TestMetrics) (ds : List TestMetrics) :
    PairOrdered (aggPair d ds) :=
  ⟨⟨statsOf_ordered _ _, statsOf_ordered _ _, statsOf_ordered _ _,
      statsOf_ordered _ _, statsOf_ordered _ _⟩,
    ⟨statsOf_ordered _ _, statsOf_ordered _ _, statsOf_ordered _ _,
      statsOf_ordered _ _, statsOf_ordered _ _⟩⟩

/-- C10: in every aggregate produced by `calculate_aggregate_stats`, for
every direction and every metric, `metric_min ≤ metric_avg ≤ metric_max`
(rounding all three to the same two decimal places preserves the
`min ≤ mean ≤ max` ordering of the underlying values). -/
theorem calculate_aggregate_stats_ordered (first : RunResult)
    (rest : List RunResult) (a : Aggregate)
    (h : calculate_aggregate_stats first rest = some a) :
    (∀ p, a.large_file = some p → PairOrdered p) ∧
    (∀ p, a.small_files = some p → PairOrdered p) := by
  cases hfl : first.large_file with
  | none =>
    cases hfs : first.small_files with
    | none =>
      simp [calculate_aggregate_stats, hfl, hfs] at h
      subst h
      exact ⟨fun p hp => absurd hp (by simp), fun p hp => absurd hp (by simp)⟩
    | some e =>
      cases hes : mapOpt RunResult.small_files rest with
      | none => simp [calculate_aggregate_stats, hfl, hfs, hes] at h
      | some es =>
        simp [calculate_aggregate_stats, hfl, hfs, hes] at h
        subst h
        refine ⟨fun p hp => absurd hp (by simp), fun p hp => ?_⟩
        obtain rfl := Option.some_inj.mp hp
        exact aggPair_ordered e es
  | some d =>
    cases hds : mapOpt RunResult.large_file rest with
    | none => simp [calculate_aggregate_stats, hfl, hds] at h
    | some ds =>
      cases hfs : first.small_files with
      | none =>
        simp [calculate_aggregate_stats, hfl, hfs, hds] at h
        subst h
        refine ⟨fun p hp => ?_, fun p hp => absurd hp (by simp)⟩
        obtain rfl := Option.some_inj.mp hp
        exact aggPair_ordered d ds
      | some e =>
        cases hes : mapOpt RunResult.small_files rest with
        | none => simp [calculate_aggregate_stats, hfl, hfs, hds, hes] at h
        | some es =>
          simp [calculate_aggregate_stats, hfl, hfs, hds, hes] at h
          subst h
          refine ⟨fun p hp => ?_, fun p hp => ?_⟩
          · obtain rfl := Option.some_inj.mp hp
            exact aggPair_ordered d ds
          · obtain rfl := Option.some_inj.mp hp
            exact aggPair_ordered e es

/-- Witness for `calculate_aggregate_stats_ordered` at concrete inputs. -/
theorem calculate_aggregate_stats_ordered_witness :
    calculate_aggregate_stats ⟨none, none⟩ [] = some ⟨1, none, none⟩ ∧
    ((∀ p, (Aggregate.mk 1 none none).large_file = some p → PairOrdered p) ∧
      (∀ p, (Aggregate.mk 1 none none).small_files = some p → PairOrdered p)) :=
  ⟨rfl, calculate_aggregate_stats_ordered ⟨none, none⟩ [] ⟨1, none, none⟩ rfl⟩

/-- One `shutil.copy2` call, tagged by direction and the file copied. -/
inductive CopyEvent (α : Type) where
  | upload (f : α)
  | download (f : α)
deriving DecidableEq, Repr

/-- The upload loop of `run_small_test` (lines 244-245):
`for f in files: shutil.copy2(f, remote_dir / f.name)`, as the trace of copy
calls it issues. -/
def uploadPhase {α : Type} : List α → List (CopyEvent α)
  | [] => []
  | f :: fs => CopyEvent.upload f :: uploadPhase fs

/-- The download loop of `run_small_test` (lines 258-259):
`for f in files: shutil.copy2(remote_dir / f.name, local_temp_dir / f.name)`,
as the trace of copy calls it issues. -/
def downloadPhase {α : Type} : List α → List (CopyEvent α)
  | [] => []
  | f :: fs => CopyEvent.download f :: downloadPhase fs

/-- The copy-call trace of `run_small_test` (lines 229-264): the upload loop
runs to completion, then the download loop runs over the same `files`
listing. -/
def run_small_test_trace {α : Type} (files : List α) : List (CopyEvent α) :=
  uploadPhase files ++ downloadPhase files

/-- The copy-call trace of `run_large_test` (lines 200-219): one upload
(line 203), then one download (line 218). -/
def run_large_test_trace {α : Type} (large : α) : List (CopyEvent α) :=
  [CopyEvent.upload large, CopyEvent.download large]

/-- Whether a copy event belongs to the upload phase. -/
def isUpload {α : Type} : CopyEvent α → Bool
  | .upload _ => true
  | .download _ => false

/-- Whether a copy event belongs to the download phase. -/
def isDownload {α : Type} : CopyEvent α → Bool
  | .upload _ => false
  | .download _ => true

theorem uploadPhase_eq_map {α : Type} (files : List α) :
    uploadPhase files = files.map CopyEvent.upload := by
  induction files with
  | nil => rfl
  | cons f fs ih => simp [uploadPhase, ih]

theorem downloadPhase_eq_map {α : Type} (files : List α) :
    downloadPhase files = files.map CopyEvent.download := by
  induction files with
  | nil => rfl
  | cons f fs ih => simp [downloadPhase, ih]

theorem upload_not_download {α : Type} (e : CopyEvent α)
    (hu : isUpload e = true) (hd : isDownload e = true) : False := by
  cases e <;> simp [isUpload, isDownload] at hu hd

theorem append_phase_ordered {α : Type} (A B : List (CopyEvent α))
    (hA : ∀ e ∈ A, isUpload e = true) (hB : ∀ e ∈ B, isDownload e = true)
    (i j : ℕ) (hi : i < (A ++ B).length) (hj : j < (A ++ B).length)
    (hu : isUpload ((A ++ B).get ⟨i, hi⟩) = true)
    (hd : isDownload ((A ++ B).get ⟨j, hj⟩) = true) : i < j := by
  have hiA : i < A.length := by
    by_contra hge
    push_neg at hge
    have hmem : (A ++ B).get ⟨i, hi⟩ ∈ B := by
      rw [List.get_eq_getElem, List.getElem_append_right hge]
      exact List.getElem_mem _
    exact upload_not_download _ hu (hB _ hmem)
  have hjB : A.length ≤ j := by
    by_contra hlt
    push_neg at hlt
    have hmem : (A ++ B).get ⟨j, hj⟩ ∈ A := by
      rw [List.get_eq_getElem, List.getElem_append_left hlt]
      exact List.getElem_mem _
    exact upload_not_download _ (hA _ hmem) hd
  omega

/-- C7: copies are strictly sequential and ordered.  The small-file test's
trace is the upload pass over the directory listing followed by the download
pass (no interleaving); with a duplicate-free listing each file is copied
exactly once per phase; every upload precedes every download in the trace;
and the large-file test issues exactly one upload followed by one
download. -/
theorem copies_sequential {α : Type} [DecidableEq α] (files : List α)
    (large : α) (hnd : files.Nodup) :
    run_small_test_trace files =
      files.map CopyEvent.upload ++ files.map CopyEvent.download ∧
    (∀ f ∈ files,
      (run_small_test_trace files).count (CopyEvent.upload f) = 1 ∧
      (run_small_test_trace files).count (CopyEvent.download f) = 1) ∧
    (∀ i j (hi : i < (run_small_test_trace files).length)
        (hj : j < (run_small_test_trace files).length),
      isUpload ((run_small_test_trace files).get ⟨i, hi⟩) = true →
      isDownload ((run_small_test_trace files).get ⟨j, hj⟩) = true → i < j) ∧
    run_large_test_trace large =
      [CopyEvent.upload large, CopyEvent.download large] := by
  have htr : run_small_test_trace files =
      files.map CopyEvent.upload ++ files.map CopyEvent.download := by
    rw [run_small_test_trace, uploadPhase_eq_map, downloadPhase_eq_map]
  have hinj_up : Function.Injective (CopyEvent.upload : α → CopyEvent α) := by
    intro a b h
    injection h
  have hinj_down : Function.Injective (CopyEvent.download : α → CopyEvent α) := by
    intro a b h
    injection h
  refine ⟨htr, ?_, ?_, rfl⟩
  · intro f hf
    constructor
    · rw [htr, List.count_append]
      have h1 : (files.map CopyEvent.upload).count (CopyEvent.upload f) = 1 := by
        rw [List.count_map_of_injective files CopyEvent.upload hinj_up]
        exact List.count_eq_one_of_mem hnd hf
      have h2 : (files.map CopyEvent.download).count (CopyEvent.upload f) = 0 := by
        rw [List.count_eq_zero]
        intro hmem
        obtain ⟨x, _, hx⟩ := List.mem_map.mp hmem
        exact CopyEvent.noConfusion hx
      rw [h1, h2]
    · rw [htr, List.count_append]
      have h1 : (files.map CopyEvent.upload).count (CopyEvent.download f) = 0 := by
        rw [List.count_eq_zero]
        intro hmem
        obtain ⟨x, _, hx⟩ := List.mem_map.mp hmem
        exact CopyEvent.noConfusion hx
      have h2 : (files.map CopyEvent.download).count (CopyEvent.download f) = 1 := by
        rw [List.count_map_of_injective files CopyEvent.download hinj_down]
        exact List.count_eq_one_of_mem hnd hf
      rw [h1, h2]
  · intro i j hi hj hu hd
    have hA : ∀ e ∈ files.map CopyEvent.upload, isUpload e = true := by
      intro e he
      obtain ⟨x, _, rfl⟩ := List.mem_map.mp he
      rfl
    have hB : ∀ e ∈ files.map CopyEvent.download, isDownload e = true := by
      intro e he
      obtain ⟨x, _, rfl⟩ := List.mem_map.mp he
      rfl
    have hi2 := hi
    have hj2 := hj
    rw [htr] at hi2 hj2
    refine append_phase_ordered _ _ hA hB i j hi2 hj2 ?_ ?_
    · rw [show (files.map CopyEvent.upload ++
          files.map CopyEvent.download).get ⟨i, hi2⟩ =
          (run_small_test_trace files).get ⟨i, hi⟩ from
        (List.get_of_eq htr ⟨i, hi⟩).symm]
      exact hu
    · rw [show (files.map CopyEvent.upload ++
          files.map CopyEvent.download).get ⟨j, hj2⟩ =
          (run_small_test_trace files).get ⟨j, hj⟩ from
        (List.get_of_eq htr ⟨j, hj⟩).symm]
      exact hd

/-- Witness for `copies_sequential` at concrete inputs. -/
theorem copies_sequential_witness :
    ([0, 1] : List ℕ).Nodup ∧
    (run_small_test_trace [0, 1] =
        ([0, 1] : List ℕ).map CopyEvent.upload ++
          ([0, 1] : List ℕ).map CopyEvent.download ∧
      (∀ f ∈ ([0, 1] : List ℕ),
        (run_small_test_trace [0, 1]).count (CopyEvent.upload f) = 1 ∧
        (run_small_test_trace [0, 1]).count (CopyEvent.download f) = 1) ∧
      (∀ i j (hi : i < (run_small_test_trace ([0, 1] : List ℕ)).length)
          (hj : j < (run_small_test_trace ([0, 1] : List ℕ)).length),
        isUpload ((run_small_test_trace [0, 1]).get ⟨i, hi⟩) = true →
        isDownload ((run_small_test_trace [0, 1]).get ⟨j, hj⟩) = true → i < j) ∧
      run_large_test_trace (7 : ℕ) =
        [CopyEvent.upload 7, CopyEvent.download 7]) :=
  ⟨by decide, copies_sequential [0, 1] 7 (by decide)⟩

/-- Names in the local staging directory.  `downloadTemp u` is the file
`download_temp_{uuid}.bin` (line 212), a name shape disjoint from the staged
`large_test_file.bin`. -/
inductive LocalName where
  | largeTestFile
  | downloadTemp (uuid : ℕ)
  | other (name : String)
deriving DecidableEq

/-- Names in the remote staging directory. -/
inductive RemoteName where
  | largeTestFile
  | other (name : String)
deriving DecidableEq

/-- The filesystem state touched by `run_large_test`: contents of the local
staging directory and of the remote staging directory. -/
structure LargeTestState where
  localFS : LocalName → Option ℕ
  remoteFS : RemoteName → Option ℕ

/-- Write (or with `none`, unlink with `missing_ok=True`) one entry of a
directory map. -/
def fsWrite {γ : Type} [DecidableEq γ] (fs : γ → Option ℕ) (name : γ)
    (v : Option ℕ) : γ → Option ℕ :=
  fun n => if n = name then v else fs n

/-- Embedding of the filesystem effects of `run_large_test` (lines 192-227):
upload `shutil.copy2(local_file, remote_file)`, download
`shutil.copy2(remote_file, local_temp)` into the fresh
`download_temp_{uuid4()}.bin`, then `local_temp.unlink(missing_ok=True)` and
`remote_file.unlink(missing_ok=True)`.  A `copy2` from a missing source
raises (`error`). -/
def run_large_test (s : LargeTestState) (uuid : ℕ) :
    Except String LargeTestState :=
  match s.localFS .largeTestFile with
  | none => .error "FileNotFoundError"
  | some c =>
    let s1 : LargeTestState :=
      { s with remoteFS := fsWrite s.remoteFS .largeTestFile (some c) }
    match s1.remoteFS .largeTestFile with
    | none => .error "FileNotFoundError"
    | some c2 =>
      let s2 : LargeTestState :=
        { s1 with localFS := fsWrite s1.localFS (.downloadTemp uuid) (some c2) }
      let s3 : LargeTestState :=
        { s2 with localFS := fsWrite s2.localFS (.downloadTemp uuid) none }
      let s4 : LargeTestState :=
        { s3 with remoteFS := fsWrite s3.remoteFS .largeTestFile none }
      .ok s4

/-- C9: the large-file test never overwrites or removes the staged source
file.  The download target `download_temp_{uuid}.bin` is distinct from
`large_test_file.bin` for every uuid; the test succeeds whenever the source
exists; afterwards the temporary file and the remote copy are gone; the
staged large file — and every other local file — is exactly as before. -/
theorem run_large_test_frame (s : LargeTestState) (uuid : ℕ) (c : ℕ)
    (h : s.localFS .largeTestFile = some c) :
    (∀ u, LocalName.downloadTemp u ≠ LocalName.largeTestFile) ∧
    ∃ s4, run_large_test s uuid = .ok s4 ∧
      s4.localFS .largeTestFile = s.localFS .largeTestFile ∧
      s4.localFS (.downloadTemp uuid) = none ∧
      s4.remoteFS .largeTestFile = none ∧
      ∀ n, n ≠ LocalName.downloadTemp uuid → s4.localFS n = s.localFS n := by
  refine ⟨fun u => by simp, ?_⟩
  have hstep : run_large_test s uuid = .ok
      { localFS := fsWrite (fsWrite s.localFS (.downloadTemp uuid) (some c))
          (.downloadTemp uuid) none
        remoteFS := fsWrite (fsWrite s.remoteFS .largeTestFile (some c))
          .largeTestFile none } := by
    simp only [run_large_test, h, fsWrite]
    simp
  refine ⟨_, hstep, ?_, ?_, ?_, ?_⟩
  · simp [fsWrite]
  · simp [fsWrite]
  · simp [fsWrite]
  · intro n hn
    simp [fsWrite, hn]

/-- A sample local directory holding only the staged large file. -/
def sampleLocalFS : LocalName → Option ℕ :=
  fun n => if n = LocalName.largeTestFile then some 7 else none

/-- A sample state for the large-file test witness. -/
def sampleLargeState : LargeTestState := ⟨sampleLocalFS, fun _ => none⟩

/-- Witness for `run_large_test_frame` at concrete inputs. -/
theorem run_large_test_frame_witness :
    sampleLargeState.localFS .largeTestFile = some 7 ∧
    ((∀ u, LocalName.downloadTemp u ≠ LocalName.largeTestFile) ∧
      ∃ s4, run_large_test sampleLargeState 0 = .ok s4 ∧
        s4.localFS .largeTestFile = sampleLargeState.localFS .largeTestFile ∧
        s4.localFS (.downloadTemp 0) = none ∧
        s4.remoteFS .largeTestFile = none ∧
        ∀ n, n ≠ LocalName.downloadTemp 0 →
          s4.localFS n = sampleLargeState.localFS n) :=
  ⟨by simp [sampleLargeState, sampleLocalFS],
    run_large_test_frame sampleLargeState 0 7
      (by simp [sampleLargeState, sampleLocalFS])⟩

/-- Events of one main-loop iteration (lines 436-456). -/
inductive MainEvent where
  | setupLargeFile
  | setupSmallFiles
  | runLargeTest
  | runSmallTest
  | saveReport
  | rmtreeRemote
  | warnCleanup
deriving DecidableEq, Repr

/-- The `shutil.rmtree(self.remote_staging)` call inside `cleanup_remote`,
which may raise. -/
def rmtree_result (raises : Bool) : Except String Unit :=
  if raises then .error "OSError" else .ok ()

/-- Embedding of `SMBBenchmarker.cleanup_remote` (lines 270-276): inside
`try`, remove the remote staging directory when it exists; any exception is
caught and only a warning is printed.  Returns the events performed and the
exception outcome visible to the caller. -/
def cleanup_remote (remoteExists rmtreeRaises : Bool) :
    List MainEvent × Except String Unit :=
  if remoteExists then
    match rmtree_result rmtreeRaises with
    | .ok _ => ([.rmtreeRemote], .ok ())
    | .error _ => ([.rmtreeRemote, .warnCleanup], .ok ())
  else ([], .ok ())

/-- Python `try ... finally` semantics on (trace, outcome) pairs: the
`finally` block's trace always follows the body's; an exception raised by
the `finally` block supersedes the body's outcome. -/
def tryFinally (body fin : List MainEvent × Except String Unit) :
    List MainEvent × Except String Unit :=
  (body.1 ++ fin.1,
    match fin.2 with
    | .error e => .error e
    | .ok _ => body.2)

/-- One iteration of `main`'s benchmark loop (lines 436-456): the `try`
body (setup, tests, report saving) with an arbitrary trace and outcome,
then the `finally` block invoking `cleanup_remote`. -/
def main_iteration (bodyTrace : List MainEvent)
    (bodyOutcome : Except String Unit) (remoteExists rmtreeRaises : Bool) :
    List MainEvent × Except String Unit :=
  tryFinally (bodyTrace, bodyOutcome) (cleanup_remote remoteExists rmtreeRaises)

/-- C6: remote cleanup runs in the `finally` block: whatever the body's
trace and outcome (normal completion or an exception), the iteration's
trace is the body's trace followed by `cleanup_remote`'s, `cleanup_remote`
never propagates an exception (so the iteration's outcome is exactly the
body's), and a failing `rmtree` on an existing remote directory only
produces a warning. -/
theorem cleanup_in_finally (bodyTrace : List MainEvent)
    (bodyOutcome : Except String Unit) (remoteExists rmtreeRaises : Bool) :
    (main_iteration bodyTrace bodyOutcome remoteExists rmtreeRaises).1 =
      bodyTrace ++ (cleanup_remote remoteExists rmtreeRaises).1 ∧
    (cleanup_remote remoteExists rmtreeRaises).2 = .ok () ∧
    (main_iteration bodyTrace bodyOutcome remoteExists rmtreeRaises).2 =
      bodyOutcome ∧
    (remoteExists = true →
      .rmtreeRemote ∈
        (main_iteration bodyTrace bodyOutcome remoteExists rmtreeRaises).1) ∧
    (remoteExists = true → rmtreeRaises = true →
      (cleanup_remote remoteExists rmtreeRaises).1 =
        [.rmtreeRemote, .warnCleanup]) := by
  cases remoteExists <;> cases rmtreeRaises <;>
    simp [main_iteration, tryFinally, cleanup_remote, rmtree_result]

/-- Witness for `cleanup_in_finally` at concrete inputs: a body that raised,
an existing remote directory, and a failing `rmtree`. -/
theorem cleanup_in_finally_witness :
    (main_iteration [.setupLargeFile] (.error "Exception") true true).1 =
      [.setupLargeFile] ++ (cleanup_remote true true).1 ∧
    (cleanup_remote true true).2 = .ok () ∧
    (main_iteration [.setupLargeFile] (.error "Exception") true true).2 =
      .error "Exception" ∧
    (true = true →
      .rmtreeRemote ∈
        (main_iteration [.setupLargeFile] (.error "Exception") true true).1) ∧
    (true = true → true = true →
      (cleanup_remote true true).1 = [.rmtreeRemote, .warnCleanup]) :=
  cleanup_in_finally [.setupLargeFile] (.error "Exception") true true

end SMBBench
